import Mathlib

/-!
Verification of the `ibackupy` backup catalog resolver.

The definitions below are a shallow embedding of `src/ibackupy/backup.py`
(class `Backup`) and of `src/demo/home.py` (`get_app_list`).  Filesystem
state is passed explicitly: directory entries as lists, on-disk content
files as a list of component paths, property-list decoding as an explicit
function argument.  SQLite execution of the query built by `get_files` is
modelled by its relational semantics (`rowSelected`), with SQL `LIKE`
pattern matching modelled faithfully (`%` and `_` wildcards, ASCII
case-insensitive comparison), which is exact for filter values free of
single quotes.
-/

/-- ASCII lower-casing, as used by the default SQLite `LIKE` (only `A`-`Z`
fold; other characters are compared verbatim). -/
def charLower (c : Char) : Char :=
  if 'A' ≤ c ∧ c ≤ 'Z' then Char.ofNat (c.toNat + 32) else c

/-- All suffixes of a list, longest first, ending with `[]`. -/
def tailsList : List Char → List (List Char)
  | [] => [[]]
  | c :: s => (c :: s) :: tailsList s

/-- SQL `LIKE` matching on character lists: `%` matches any sequence,
`_` matches any single character, other characters match ASCII
case-insensitively (SQLite's default `LIKE` behaviour). -/
def likeM : List Char → List Char → Bool
  | [], s => s.isEmpty
  | c :: ps, s =>
    if c = '%' then (tailsList s).any (fun t => likeM ps t)
    else if c = '_' then
      match s with
      | [] => false
      | _ :: s2 => likeM ps s2
    else
      match s with
      | [] => false
      | a :: s2 => (charLower c == charLower a) && likeM ps s2

/-- SQL `LIKE` matching on strings. -/
def likeMatch (pat s : String) : Bool := likeM pat.data s.data

/-- Case-insensitive (ASCII) prefix test on character lists. -/
def isPrefixCI : List Char → List Char → Bool
  | [], _ => true
  | _ :: _, [] => false
  | c :: n, a :: h => (charLower c == charLower a) && isPrefixCI n h

/-- Case-insensitive (ASCII) substring-anywhere test on character lists. -/
def containsCI (n h : List Char) : Bool := (tailsList h).any (fun t => isPrefixCI n t)

/-- Case-insensitive (ASCII) substring-anywhere test on strings. -/
def containsCIs (n h : String) : Bool := containsCI n.data h.data

/-- Literal (exact, case-sensitive) substring-anywhere test, the notion of
"contains as a literal substring" used by the specification. -/
def containsLit (n h : List Char) : Bool := (tailsList h).any (fun t => n.isPrefixOf t)

/-- `true` when the string contains no SQL `LIKE` metacharacter (`%`, `_`)
and no single-quote character (code 39). -/
def noLikeMeta (s : String) : Bool :=
  s.data.all (fun c => !(c == '%' || c == '_' || c == Char.ofNat 39))

/-- Python `str.startswith`. -/
def startsWithPy (pre s : String) : Bool := pre.data.isPrefixOf s.data

/-- Errors surfaced by the catalog resolver: `fileMissing` is the
`assert file_path.is_file()` failure in `_parse_file_path`
(spec: `FileMissingError`), `malformedMetadata` is a `plistlib.loads`
failure in `_parse_file_info` (spec: `MalformedMetadataError`), and
`keyError` is a Python dict key lookup failure. -/
inductive BErr where
  | fileMissing
  | malformedMetadata
  | keyError
  deriving DecidableEq, Repr

/-- One row of the `Files` table of `Manifest.db`: columns `fileID`,
`domain`, `relativePath`, `flags`, `file` (the raw metadata blob,
modelled as a byte list). -/
structure FRow where
  fileID : String
  domain : String
  relativePath : String
  flags : Nat
  file : List Nat
  deriving DecidableEq, Repr

/-- `Backup._get_app_domain`: `f"AppDomain-{app}" if app else ""`. -/
def _get_app_domain (app : String) : String :=
  if app = "" then "" else "AppDomain-" ++ app

/-- Relational semantics of the `WHERE` clause that `Backup.get_files`
builds: `flags = file_flag`, then `domain = '<app_domain>'` when the app
domain is non-empty, then `domain LIKE '%<dom>%'` when `dom` is non-empty,
then `relativePath LIKE '%<rel>%'` when `rel` is non-empty.  Exact for
filter values containing no single quote (the values are interpolated
directly into the SQL text by the source). -/
def rowSelected (app dom rel : String) (file_flag : Nat) (r : FRow) : Bool :=
  (r.flags == file_flag)
  && (if _get_app_domain app = "" then true else r.domain == _get_app_domain app)
  && (if dom = "" then true else likeMatch ("%" ++ dom ++ "%") r.domain)
  && (if rel = "" then true else likeMatch ("%" ++ rel ++ "%") r.relativePath)

/-- A result record of `Backup.get_files`: the row dict with its optional
`path` and `info` entries, and the `file` entry present (`some`) or
deleted (`none`). -/
structure OutRec (α : Type) where
  fileID : String
  domain : String
  relativePath : String
  path : Option (List String)
  info : Option α
  file : Option (List Nat)
  deriving DecidableEq, Repr

/-- Result of `Backup.get_files`: the record list plus the number of
warnings the call logged. -/
structure QueryResult (α : Type) where
  files : List (OutRec α)
  warnings : Nat
  deriving DecidableEq, Repr

/-- `dict(file)` for a fetched row: the four selected columns, no `path`
or `info` entry yet. -/
def mkOut {α : Type} (r : FRow) : OutRec α :=
  ⟨r.fileID, r.domain, r.relativePath, none, none, some r.file⟩

/-- `del file["file"]`. -/
def delFileCol {α : Type} (r : OutRec α) : OutRec α :=
  { r with file := none }

/-- The on-disk location `backup_path / id[:2] / id` used by
`Backup._parse_file_path`. -/
def realFilePath (backup_path : List String) (id : String) : List String :=
  backup_path ++ [id.take 2, id]

/-- `Backup._parse_file_path`: assemble `backup_path / id[:2] / id` and
assert that it exists on disk (`fs` is the set of existing files). -/
def parse_file_path (backup_path : List String) (fs : List (List String))
    (id : String) : Except BErr (List String) :=
  let file_path := realFilePath backup_path id
  if file_path ∈ fs then .ok file_path else .error .fileMissing

/-- The `real_path` loop of `Backup.get_files`: set `file["path"]` on each
record in order, aborting at the first missing file. -/
def resolvePaths {α : Type} (backup_path : List String) (fs : List (List String)) :
    List (OutRec α) → Except BErr (List (OutRec α))
  | [] => .ok []
  | r :: rs =>
    match parse_file_path backup_path fs r.fileID with
    | .error e => .error e
    | .ok p =>
      match resolvePaths backup_path fs rs with
      | .error e => .error e
      | .ok rest => .ok ({ r with path := some p } :: rest)

/-- The `file_info` loop of `Backup.get_files`: set `file["info"]` from the
decoded `file` blob on each record in order, aborting at the first blob the
decoder rejects. -/
def decodeInfos {α : Type} (decode : List Nat → Option α) :
    List (OutRec α) → Except BErr (List (OutRec α))
  | [] => .ok []
  | r :: rs =>
    match r.file with
    | none => .error .keyError
    | some b =>
      match decode b with
      | none => .error .malformedMetadata
      | some v =>
        match decodeInfos decode rs with
        | .error e => .error e
        | .ok rest => .ok ({ r with info := some v } :: rest)

/-- `Backup.get_files`: select the rows of `table` matching the filters,
then (a) if `real_path` and `file_flag = 1`, resolve each record's on-disk
path, or if `real_path` and `file_flag ≠ 1`, log one warning; (b) if
`file_info`, decode each record's blob; (c) delete the `file` entry from
every record.  `decode` models `plistlib.loads` (returning `none` where the
original raises). -/
def get_files {α : Type} (app dom rel : String) (file_flag : Nat)
    (real_path file_info : Bool) (table : List FRow)
    (backup_path : List String) (fs : List (List String))
    (decode : List Nat → Option α) : Except BErr (QueryResult α) :=
  let files := table.filter (fun r => rowSelected app dom rel file_flag r)
  if files.isEmpty then .ok ⟨[], 0⟩
  else
    match (if real_path then
             if file_flag = 1 then
               match resolvePaths backup_path fs (files.map mkOut) with
               | .error e => .error e
               | .ok l => .ok (l, 0)
             else .ok (files.map mkOut, 1)
           else .ok (files.map mkOut, 0) : Except BErr (List (OutRec α) × Nat)) with
    | .error e => .error e
    | .ok (files2, w) =>
      match (if file_info then decodeInfos decode files2 else .ok files2) with
      | .error e => .error e
      | .ok files3 => .ok ⟨files3.map delFileCol, w⟩

deriving instance DecidableEq for Except

/-- The device record that `Backup._get_device_info` builds from a readable
`Manifest.plist`; the descriptor-file timestamp (`date`) is modelled as a
natural number. -/
structure DeviceRec where
  udid : String
  name : String
  ios : String
  serial : String
  productType : String
  encrypted : Bool
  passcodeSet : Bool
  date : Nat
  deriving DecidableEq, Repr

/-- The Python dict returned by `Backup._get_device_info`: either fully
populated (`some`) or the empty dict `{}` (`none`), since any read or
decode failure yields `{}` wholesale. -/
abbrev DeviceDict := Option DeviceRec

/-- An entry of the backup root directory, as seen by
`self.backup_dir.iterdir()`. -/
structure DirEntry where
  name : String
  isDir : Bool
  deriving DecidableEq, Repr

/-- `Backup.get_device_list`: one descriptor per immediate subdirectory of
the backup root whose name is 25 or 40 characters long; `readInfo` models
`Backup._get_device_info`, which returns the empty dict (`none`) for a
missing or unreadable `Manifest.plist` instead of raising. -/
def get_device_list (entries : List DirEntry) (readInfo : String → DeviceDict) :
    List DeviceDict :=
  match entries with
  | [] => []
  | e :: es =>
    if e.isDir && (e.name.length == 25 || e.name.length == 40)
    then readInfo e.name :: get_device_list es readInfo
    else get_device_list es readInfo

/-- The comprehension `udids = [d["udid"] for d in devices]` of
`Backup.set_device`: accessing `d["udid"]` raises `KeyError` at the first
empty dict; on success every dict is fully populated, and the rest of
`set_device` works with those records. -/
def getPopulated : List DeviceDict → Except BErr (List DeviceRec)
  | [] => .ok []
  | none :: _ => .error .keyError
  | some d :: rest =>
    match getPopulated rest with
    | .error e => .error e
    | .ok l => .ok (d :: l)

/-- Stable insertion into an ascending-by-`date` list: an element is placed
before the first element whose `date` is ≥ its own. -/
def insertD (x : DeviceRec) : List DeviceRec → List DeviceRec
  | [] => [x]
  | y :: ys => if x.date ≤ y.date then x :: y :: ys else y :: insertD x ys

/-- `sorted(devices, key=lambda d: d["date"])`: Python's `sorted` is a
stable ascending sort, modelled here by stable insertion sort (any two
stable ascending sorts of the same list agree). -/
def sortD : List DeviceRec → List DeviceRec
  | [] => []
  | d :: ds => insertD d (sortD ds)

/-- `devices_sorted[-1]`: the last element of a list, `none` when empty. -/
def last1 : List DeviceRec → Option DeviceRec
  | [] => none
  | [x] => some x
  | _ :: y :: ys => last1 (y :: ys)

/-- Modelled from the spec: "the one with the latest `backupTimestamp`,
ties broken by stable input order — last element of a stable ascending
sort", i.e. a left-to-right scan keeping the later element on ties. -/
def pickLatest : DeviceRec → List DeviceRec → DeviceRec
  | acc, [] => acc
  | acc, d :: ds => pickLatest (if acc.date ≤ d.date then d else acc) ds

/-- `Backup.set_device` (selection part): extract every device's `udid`
(raising `KeyError` on an empty dict), then select the requested device if
its udid was discovered, else the sole device, else the last element of the
stable date-ascending sort, else the empty dict. -/
def set_device (udid : String) (devices : List DeviceDict) : Except BErr DeviceDict :=
  match getPopulated devices with
  | .error e => .error e
  | .ok ds =>
    let udids := ds.map (fun d => d.udid)
    .ok (if udid = "" ∨ udid ∉ udids then
           if ds.length < 1 then none
           else if ds.length = 1 then ds.head?
           else last1 (sortD ds)
         else ds.find? (fun d => d.udid == udid))

/-- A decoded property-list value (result of `plistlib.loads`). -/
inductive PVal where
  | str : String → PVal
  | int : Int → PVal
  | bool : Bool → PVal
  | arr : List PVal → PVal
  | dict : List (String × PVal) → PVal

/-- Python `dict.get`-style lookup in a decoded property-list mapping. -/
def lookupKey (m : List (String × PVal)) (k : String) : Option PVal :=
  match m with
  | [] => none
  | (k2, v) :: rest => if k2 = k then some v else lookupKey rest k

/-- `pandas.Series.unique`: deduplicate keeping first occurrences in
order. -/
def uniqGo (seen : List String) : List String → List String
  | [] => []
  | x :: xs => if x ∈ seen then uniqGo seen xs else x :: uniqGo (x :: seen) xs

/-- `get_app_list` of `src/demo/home.py`: if the device's `Info.plist` data
is a non-empty mapping, return its `Installed Applications` value (a
`KeyError` if that key is absent); otherwise return the unique catalog
domains that start with the literal string `"AppDoman-"` (sic — the string
as written in the source), in first-occurrence order. -/
def get_app_list (info : List (String × PVal)) (manifestDomains : List String) :
    Except BErr PVal :=
  if info.isEmpty = false then
    match lookupKey info "Installed Applications" with
    | some v => .ok v
    | none => .error .keyError
  else
    .ok (.arr ((uniqGo [] ((manifestDomains.filter
      (fun d => startsWithPy "AppDoman-" d)))).map PVal.str))

def devA : DeviceRec := ⟨"u1", "A", "16", "s1", "t", false, false, 5⟩

def devB : DeviceRec := ⟨"u2", "B", "17", "s2", "t", false, false, 9⟩

/-- The single-quote character (code 39). -/
def squoteC : Char := Char.ofNat 39

/-- The string holding just the single-quote character. -/
def squote : String := String.mk [squoteC]

/-- A SQLite value of the restricted grammar the generated queries use. -/
inductive SqlVal where
  | vstr : String → SqlVal
  | vint : Nat → SqlVal
  deriving DecidableEq, Repr

/-- An operand of a SQL comparison: a column reference or a literal. -/
inductive SqlOperand where
  | col : String → SqlOperand
  | lit : SqlVal → SqlOperand
  deriving DecidableEq, Repr

/-- A SQLite `WHERE` expression of the restricted grammar the generated
queries fall into: `=` and `LIKE` comparisons combined by `AND` and `OR`,
with `AND` binding tighter than `OR` as in SQL. -/
inductive SqlExpr where
  | eqCmp : SqlOperand → SqlOperand → SqlExpr
  | likeCmp : SqlOperand → SqlOperand → SqlExpr
  | conj : SqlExpr → SqlExpr → SqlExpr
  | disj : SqlExpr → SqlExpr → SqlExpr
  deriving DecidableEq, Repr

/-- A token of the SQL `WHERE`-clause lexer. -/
inductive SqlTok where
  | ident : String → SqlTok
  | str : String → SqlTok
  | num : Nat → SqlTok
  | eqSym : SqlTok
  deriving DecidableEq, Repr

def isSqlSpace (c : Char) : Bool := c == ' ' || c == '\n' || c == '\t' || c == '\r'

def isSqlDigit (c : Char) : Bool := '0' ≤ c && c ≤ '9'

def isSqlIdentChar (c : Char) : Bool :=
  ('a' ≤ c && c ≤ 'z') || ('A' ≤ c && c ≤ 'Z') || isSqlDigit c || c == '_'

/-- Scan a string literal's body up to (and consuming) the closing quote;
`none` on an unterminated literal (a SQLite syntax error).  The `''`
escape is not modelled: the generated clauses contain one quote per
interpolated quote character, never the escape. -/
def scanStr : List Char → Option (List Char × List Char)
  | [] => none
  | c :: cs =>
    if c = squoteC then some ([], cs)
    else
      match scanStr cs with
      | none => none
      | some (s, rest) => some (c :: s, rest)

/-- Split off the longest run of characters satisfying `p`. -/
def scanWhile (p : Char → Bool) : List Char → List Char × List Char
  | [] => ([], [])
  | c :: cs =>
    if p c then
      let (s, rest) := scanWhile p cs
      (c :: s, rest)
    else ([], c :: cs)

def digitsToNat (l : List Char) : Nat :=
  l.foldl (fun acc c => acc * 10 + (c.toNat - 48)) 0

/-- Lexer for the `WHERE` clauses `Backup.get_files` generates: skips
whitespace, reads quoted string literals, `=`, numbers and identifiers
(column names and the `AND`/`OR`/`LIKE` keywords); any other character is
a syntax error.  Fuel-driven; each step consumes at least one character. -/
def sqlLex : Nat → List Char → Option (List SqlTok)
  | 0, _ => none
  | _, [] => some []
  | Nat.succ fuel, c :: cs =>
    if isSqlSpace c then sqlLex fuel cs
    else if c = squoteC then
      match scanStr cs with
      | none => none
      | some (s, rest) =>
        match sqlLex fuel rest with
        | none => none
        | some ts => some (.str (String.mk s) :: ts)
    else if c = '=' then
      match sqlLex fuel cs with
      | none => none
      | some ts => some (.eqSym :: ts)
    else if isSqlDigit c then
      let (ds, rest) := scanWhile isSqlDigit (c :: cs)
      match sqlLex fuel rest with
      | none => none
      | some ts => some (.num (digitsToNat ds) :: ts)
    else if isSqlIdentChar c then
      let (s, rest) := scanWhile isSqlIdentChar (c :: cs)
      match sqlLex fuel rest with
      | none => none
      | some ts => some (.ident (String.mk s) :: ts)
    else none

def parseOperand : List SqlTok → Option (SqlOperand × List SqlTok)
  | .ident n :: ts =>
    if n = "AND" || n = "OR" || n = "LIKE" then none else some (.col n, ts)
  | .str s :: ts => some (.lit (.vstr s), ts)
  | .num n :: ts => some (.lit (.vint n), ts)
  | _ => none

def parseCmp (ts : List SqlTok) : Option (SqlExpr × List SqlTok) :=
  match parseOperand ts with
  | none => none
  | some (a, ts1) =>
    match ts1 with
    | .eqSym :: ts2 =>
      match parseOperand ts2 with
      | none => none
      | some (b, ts3) => some (.eqCmp a b, ts3)
    | .ident k :: ts2 =>
      if k = "LIKE" then
        match parseOperand ts2 with
        | none => none
        | some (b, ts3) => some (.likeCmp a b, ts3)
      else none
    | _ => none

def parseAndChain : Nat → SqlExpr → List SqlTok → Option (SqlExpr × List SqlTok)
  | 0, _, _ => none
  | Nat.succ fuel, acc, ts =>
    match ts with
    | .ident k :: ts1 =>
      if k = "AND" then
        match parseCmp ts1 with
        | none => none
        | some (e, ts2) => parseAndChain fuel (.conj acc e) ts2
      else some (acc, ts)
    | _ => some (acc, ts)

def parseAnd (fuel : Nat) (ts : List SqlTok) : Option (SqlExpr × List SqlTok) :=
  match parseCmp ts with
  | none => none
  | some (e, ts1) => parseAndChain fuel e ts1

def parseOrChain : Nat → SqlExpr → List SqlTok → Option (SqlExpr × List SqlTok)
  | 0, _, _ => none
  | Nat.succ fuel, acc, ts =>
    match ts with
    | .ident k :: ts1 =>
      if k = "OR" then
        match parseAnd fuel ts1 with
        | none => none
        | some (e, ts2) => parseOrChain fuel (.disj acc e) ts2
      else some (acc, ts)
    | _ => some (acc, ts)

/-- Parse a complete `WHERE` clause: an `AND`-chain of comparisons,
optionally continued by `OR`-separated `AND`-chains; leftover tokens are a
syntax error. -/
def parseWhere (s : String) : Option SqlExpr :=
  match sqlLex (s.length + 1) s.data with
  | none => none
  | some ts =>
    match parseAnd (ts.length + 1) ts with
    | none => none
    | some (e, ts1) =>
      match parseOrChain (ts.length + 1) e ts1 with
      | none => none
      | some (e2, []) => some e2
      | some (_, _ :: _) => none

def evalOperand (r : FRow) : SqlOperand → Option SqlVal
  | .col n =>
    if n = "flags" then some (.vint r.flags)
    else if n = "domain" then some (.vstr r.domain)
    else if n = "relativePath" then some (.vstr r.relativePath)
    else if n = "fileID" then some (.vstr r.fileID)
    else none
  | .lit v => some v

/-- Per-row evaluation of a `WHERE` expression, with SQLite semantics on
this grammar: `=` compares like values (an integer never equals a text
value), `LIKE` is the wildcard match `likeMatch`, `AND`/`OR` are boolean. -/
def evalExpr (r : FRow) : SqlExpr → Option Bool
  | .eqCmp a b =>
    match evalOperand r a, evalOperand r b with
    | some (.vint x), some (.vint y) => some (x == y)
    | some (.vstr x), some (.vstr y) => some (x == y)
    | some _, some _ => some false
    | _, _ => none
  | .likeCmp a b =>
    match evalOperand r a, evalOperand r b with
    | some (.vstr x), some (.vstr p) => some (likeMatch p x)
    | some _, some _ => some false
    | _, _ => none
  | .conj a b =>
    match evalExpr r a, evalExpr r b with
    | some x, some y => some (x && y)
    | _, _ => none
  | .disj a b =>
    match evalExpr r a, evalExpr r b with
    | some x, some y => some (x || y)
    | _, _ => none

/-- The `WHERE` clause text exactly as the f-strings of `Backup.get_files`
assemble it (whitespace normalized to single spaces): `flags = <flag>`,
then ` AND domain = '<app_domain>'` when the app domain is non-empty, then
` AND domain LIKE '%<dom>%'` and ` AND relativePath LIKE '%<rel>%'` for
non-empty substring filters — each filter value interpolated directly into
the text, quotes and all. -/
def buildWhere (app dom rel : String) (flag : Nat) : String :=
  "flags = " ++ toString flag
  ++ (if _get_app_domain app = "" then ""
      else " AND domain = " ++ squote ++ _get_app_domain app ++ squote)
  ++ (if dom = "" then ""
      else " AND domain LIKE " ++ squote ++ "%" ++ dom ++ "%" ++ squote)
  ++ (if rel = "" then ""
      else " AND relativePath LIKE " ++ squote ++ "%" ++ rel ++ "%" ++ squote)

/-- String-level model of the query execution in `Backup.get_files`: build
the `WHERE` text, lex and parse it (a malformed clause is a SQLite syntax
error, `none`), and filter the table by per-row evaluation.  This is what
SQLite does with the raw interpolated text; `rowSelected` is its
relational shortcut, exact for filter values free of single quotes. -/
def runQuery (app dom rel : String) (flag : Nat) (table : List FRow) :
    Option (List FRow) :=
  match parseWhere (buildWhere app dom rel flag) with
  | none => none
  | some e => some (table.filter (fun r => (evalExpr r e).getD false))

theorem mem_filter_map_out {α : Type} (table : List FRow) (p : FRow → Bool)
    (F : FRow → OutRec α) (r2 : OutRec α) (h : r2 ∈ (table.filter p).map F) :
    ∃ row ∈ table, p row = true ∧ r2 = F row := by
  rcases List.mem_map.mp h with ⟨row, hrow, hF⟩
  rcases List.mem_filter.mp hrow with ⟨hmem, hp⟩
  exact ⟨row, hmem, hp, hF.symm⟩

theorem resolvePaths_ok {α : Type} (bp : List String) (fs : List (List String)) :
    ∀ (l out : List (OutRec α)), resolvePaths bp fs l = .ok out →
      (∀ r ∈ l, realFilePath bp r.fileID ∈ fs) ∧
      out = l.map (fun r => { r with path := some (realFilePath bp r.fileID) }) := by
  intro l
  induction l with
  | nil =>
    intro out h
    simp only [resolvePaths] at h
    cases h
    simp
  | cons r rs ih =>
    intro out h
    by_cases hm : realFilePath bp r.fileID ∈ fs
    · cases e : resolvePaths bp fs rs with
      | error err => simp [resolvePaths, parse_file_path, hm, e] at h
      | ok rest =>
        simp only [resolvePaths, parse_file_path, hm, if_pos, e] at h
        cases h
        rcases ih rest e with ⟨h1, h2⟩
        refine ⟨?_, ?_⟩
        · intro x hx
          rcases List.mem_cons.mp hx with hx | hx
          · exact hx ▸ hm
          · exact h1 x hx
        · simp [h2]
    · simp [resolvePaths, parse_file_path, hm] at h

theorem resolvePaths_err {α : Type} (bp : List String) (fs : List (List String)) :
    ∀ (l : List (OutRec α)), (∃ r ∈ l, realFilePath bp r.fileID ∉ fs) →
      resolvePaths bp fs l = .error .fileMissing := by
  intro l
  induction l with
  | nil => rintro ⟨r, hr, _⟩; cases hr
  | cons r rs ih =>
    rintro ⟨x, hx, hxm⟩
    rcases List.mem_cons.mp hx with hx | hx
    · subst hx
      simp [resolvePaths, parse_file_path, hxm]
    · by_cases hm : realFilePath bp r.fileID ∈ fs
      · simp [resolvePaths, parse_file_path, hm, ih ⟨x, hx, hxm⟩]
      · simp [resolvePaths, parse_file_path, hm]

theorem decodeInfos_ok {α : Type} (dec : List Nat → Option α) :
    ∀ (l out : List (OutRec α)), decodeInfos dec l = .ok out →
      (∀ r ∈ l, ∃ b v, r.file = some b ∧ dec b = some v) ∧
      out = l.map (fun r => { r with info := r.file.bind dec }) := by
  intro l
  induction l with
  | nil =>
    intro out h
    simp only [decodeInfos] at h
    cases h
    simp
  | cons r rs ih =>
    intro out h
    cases hf : r.file with
    | none => simp [decodeInfos, hf] at h
    | some b =>
      cases hd : dec b with
      | none => simp [decodeInfos, hf, hd] at h
      | some v =>
        cases e : decodeInfos dec rs with
        | error err => simp [decodeInfos, hf, hd, e] at h
        | ok rest =>
          simp only [decodeInfos, hf, hd, e] at h
          cases h
          rcases ih rest e with ⟨h1, h2⟩
          refine ⟨?_, ?_⟩
          · intro x hx
            rcases List.mem_cons.mp hx with hx | hx
            · exact hx ▸ ⟨b, v, hf, hd⟩
            · exact h1 x hx
          · simp [h2, hf, hd]

theorem decodeInfos_err {α : Type} (dec : List Nat → Option α) :
    ∀ (l : List (OutRec α)), (∀ r ∈ l, ∃ b, r.file = some b) →
      (∃ r ∈ l, ∃ b, r.file = some b ∧ dec b = none) →
      decodeInfos dec l = .error .malformedMetadata := by
  intro l
  induction l with
  | nil => rintro _ ⟨r, hr, _⟩; cases hr
  | cons r rs ih =>
    rintro hall ⟨x, hx, b, hxb, hxd⟩
    rcases List.mem_cons.mp hx with hx | hx
    · subst hx
      simp [decodeInfos, hxb, hxd]
    · rcases hall r (List.mem_cons_self r rs) with ⟨b0, hb0⟩
      cases hd : dec b0 with
      | none => simp [decodeInfos, hb0, hd]
      | some v =>
        simp [decodeInfos, hb0, hd,
          ih (fun y hy => hall y (List.mem_cons_of_mem r hy)) ⟨x, hx, b, hxb, hxd⟩]

theorem tailsList_any_isEmpty : ∀ t : List Char, (tailsList t).any (fun u => u.isEmpty) = true := by
  intro t
  induction t with
  | nil => rfl
  | cons c s ih => simp [tailsList, List.any_cons, ih]

theorem anyCongr {α : Type} (l : List α) (p q : α → Bool) (h : ∀ a ∈ l, p a = q a) :
    l.any p = l.any q := by
  induction l with
  | nil => rfl
  | cons x xs ih =>
    simp only [List.any_cons, h x (List.mem_cons_self x xs),
      ih (fun a ha => h a (List.mem_cons_of_mem x ha))]

theorem likeM_app_pct (d : List Char) (hd : ∀ c ∈ d, ¬c = '%' ∧ ¬c = '_') :
    ∀ t : List Char, likeM (d ++ ['%']) t = isPrefixCI d t := by
  induction d with
  | nil =>
    intro t
    simp only [List.nil_append, isPrefixCI, likeM]
    simp [tailsList_any_isEmpty]
  | cons c d2 ih =>
    intro t
    rcases hd c (List.mem_cons_self c d2) with ⟨hc1, hc2⟩
    have ih2 := ih (fun x hx => hd x (List.mem_cons_of_mem c hx))
    cases t with
    | nil => simp [likeM, isPrefixCI, hc1, hc2]
    | cons a t2 => simp [likeM, isPrefixCI, hc1, hc2, ih2 t2]

theorem likeM_noMeta (d : List Char) (hd : ∀ c ∈ d, ¬c = '%' ∧ ¬c = '_') (s : List Char) :
    likeM ('%' :: (d ++ ['%'])) s = containsCI d s := by
  have h1 : likeM ('%' :: (d ++ ['%'])) s
      = (tailsList s).any (fun t => likeM (d ++ ['%']) t) := by
    simp [likeM]
  rw [h1, containsCI]
  exact anyCongr _ _ _ (fun t _ => likeM_app_pct d hd t)

theorem noLikeMeta_chars (s : String) (h : noLikeMeta s = true) :
    ∀ c ∈ s.data, ¬c = '%' ∧ ¬c = '_' := by
  intro c hc
  have := (List.all_eq_true.mp h) c hc
  constructor <;> intro heq <;> subst heq <;> simp at this

theorem likeMatch_wrapped (d : String) (hd : noLikeMeta d = true) (s : String) :
    likeMatch ("%" ++ d ++ "%") s = containsCIs d s := by
  rw [likeMatch, containsCIs]
  have hdata : ("%" ++ d ++ "%").data = '%' :: (d.data ++ ['%']) := by
    simp [String.data_append]
  rw [hdata]
  exact likeM_noMeta d.data (noLikeMeta_chars d hd) s.data

theorem get_files_plain {α : Type} (app dom rel : String) (flag : Nat)
    (table : List FRow) (bp : List String) (fs : List (List String))
    (dec : List Nat → Option α) :
    get_files app dom rel flag false false table bp fs dec
      = .ok ⟨(table.filter (fun r => rowSelected app dom rel flag r)).map
          (fun r => ⟨r.fileID, r.domain, r.relativePath, none, none, none⟩), 0⟩ := by
  rw [get_files]
  by_cases he : (table.filter (fun r => rowSelected app dom rel flag r)).isEmpty
  · have hz : table.filter (fun r => rowSelected app dom rel flag r) = [] :=
      List.isEmpty_iff.mp he
    simp [he, hz]
  · simp only [he, Bool.false_eq_true, if_false]
    rw [List.map_map]
    rfl

theorem isEmpty_false_of_mem {α : Type} (l : List α) (x : α) (h : x ∈ l) :
    l.isEmpty = false := by
  cases l with
  | nil => cases h
  | cons a t => rfl

theorem get_files_missing {α : Type} (app dom rel : String) (fi : Bool)
    (table : List FRow) (bp : List String) (fs : List (List String))
    (dec : List Nat → Option α)
    (hex : ∃ row ∈ table, rowSelected app dom rel 1 row = true ∧
      realFilePath bp row.fileID ∉ fs) :
    get_files app dom rel 1 true fi table bp fs dec = .error .fileMissing := by
  rcases hex with ⟨row, hmem, hp, hmiss⟩
  have hmf : row ∈ table.filter (fun r => rowSelected app dom rel 1 r) :=
    List.mem_filter.mpr ⟨hmem, hp⟩
  have hne := isEmpty_false_of_mem _ _ hmf
  rw [get_files]
  simp only [hne, Bool.false_eq_true, if_false, if_true]
  rw [resolvePaths_err bp fs _
    ⟨mkOut row, List.mem_map_of_mem mkOut hmf, by simpa [mkOut] using hmiss⟩]

theorem get_files_malformed {α : Type} (app dom rel : String) (flag : Nat)
    (table : List FRow) (bp : List String) (fs : List (List String))
    (dec : List Nat → Option α)
    (hex : ∃ row ∈ table, rowSelected app dom rel flag row = true ∧ dec row.file = none) :
    get_files app dom rel flag false true table bp fs dec = .error .malformedMetadata := by
  rcases hex with ⟨row, hmem, hp, hdec⟩
  have hmf : row ∈ table.filter (fun r => rowSelected app dom rel flag r) :=
    List.mem_filter.mpr ⟨hmem, hp⟩
  have hne := isEmpty_false_of_mem _ _ hmf
  rw [get_files]
  simp only [hne, Bool.false_eq_true, if_false, if_true]
  rw [decodeInfos_err dec _
    (by
      intro r hr
      rcases List.mem_map.mp hr with ⟨r0, _, hr0⟩
      exact ⟨r0.file, by rw [← hr0]; rfl⟩)
    ⟨mkOut row, List.mem_map_of_mem mkOut hmf, row.file, rfl, hdec⟩]

/-- Ascending-by-`date` chains. -/
def ascend : List DeviceRec → Prop
  | [] => True
  | [_] => True
  | a :: b :: t => a.date ≤ b.date ∧ ascend (b :: t)

theorem ascend_tail (a : DeviceRec) (l : List DeviceRec) (h : ascend (a :: l)) : ascend l := by
  cases l with
  | nil => trivial
  | cons b bs => exact h.2

theorem insertD_ascend (x : DeviceRec) : ∀ l, ascend l → ascend (insertD x l) := by
  intro l
  induction l with
  | nil => intro _; trivial
  | cons y ys ih =>
    intro h
    rw [insertD]
    by_cases hxy : x.date ≤ y.date
    · rw [if_pos hxy]
      exact ⟨hxy, h⟩
    · rw [if_neg hxy]
      have hyx : y.date ≤ x.date := by omega
      cases ys with
      | nil => exact ⟨hyx, trivial⟩
      | cons z zs =>
        have ihz := ih h.2
        rw [insertD] at ihz ⊢
        by_cases hxz : x.date ≤ z.date
        · rw [if_pos hxz] at ihz ⊢
          exact ⟨hyx, ihz⟩
        · rw [if_neg hxz] at ihz ⊢
          exact ⟨h.1, ihz⟩

theorem sortD_ascend : ∀ l, ascend (sortD l) := by
  intro l
  induction l with
  | nil => trivial
  | cons d ds ih =>
    rw [sortD]
    exact insertD_ascend d _ ih

theorem ascend_last1 : ∀ (ys : List DeviceRec) (y m : DeviceRec), ascend (y :: ys) →
    last1 (y :: ys) = some m → y.date ≤ m.date := by
  intro ys
  induction ys with
  | nil =>
    intro y m _ h
    cases h
    exact le_refl _
  | cons z zs ih =>
    intro y m h hl
    rw [last1] at hl
    exact le_trans h.1 (ih z m h.2 hl)

theorem last1_cons_ne (a : DeviceRec) (l : List DeviceRec) (h : l ≠ []) :
    last1 (a :: l) = last1 l := by
  cases l with
  | nil => exact absurd rfl h
  | cons b bs => rw [last1]

theorem insertD_ne_nil (x : DeviceRec) (l : List DeviceRec) : insertD x l ≠ [] := by
  cases l with
  | nil => simp [insertD]
  | cons y ys =>
    rw [insertD]
    by_cases h : x.date ≤ y.date
    · simp [h]
    · simp [h]

theorem last1_cons_some (a : DeviceRec) : ∀ l, ∃ m, last1 (a :: l) = some m := by
  intro l
  induction l generalizing a with
  | nil => exact ⟨a, rfl⟩
  | cons b bs ih =>
    rw [last1]
    exact ih b

theorem last1_insertD : ∀ l, ascend l → ∀ x : DeviceRec,
    last1 (insertD x l) = some (match last1 l with
      | none => x
      | some m => if m.date < x.date then x else m) := by
  intro l
  induction l with
  | nil => intro _ x; rfl
  | cons y ys ih =>
    intro h x
    rw [insertD]
    by_cases hxy : x.date ≤ y.date
    · rw [if_pos hxy]
      rcases last1_cons_some y ys with ⟨m, hm⟩
      rw [last1_cons_ne x (y :: ys) (List.cons_ne_nil y ys), hm]
      have hym := ascend_last1 ys y m h hm
      have hnm : ¬ m.date < x.date := by omega
      simp [hnm]
    · rw [if_neg hxy]
      rw [last1_cons_ne y (insertD x ys) (insertD_ne_nil x ys), ih (ascend_tail y ys h) x]
      cases ys with
      | nil =>
        have hlt : y.date < x.date := by omega
        simp [last1, hlt]
      | cons z zs =>
        rw [last1_cons_ne y (z :: zs) (List.cons_ne_nil z zs)]

theorem pickLatest_swap : ∀ (t : List DeviceRec) (d e : DeviceRec),
    (if (pickLatest e t).date < d.date then d else pickLatest e t)
      = pickLatest (if d.date ≤ e.date then e else d) t := by
  intro t
  induction t with
  | nil =>
    intro d e
    simp only [pickLatest]
    by_cases h : d.date ≤ e.date
    · rw [if_pos h, if_neg (by omega)]
    · rw [if_neg h, if_pos (by omega)]
  | cons f t2 ih =>
    intro d e
    rw [pickLatest, ih d (if e.date ≤ f.date then f else e), pickLatest]
    congr 1
    by_cases h1 : d.date ≤ e.date <;> by_cases h2 : e.date ≤ f.date <;>
      simp only [h1, h2, if_true, if_false, ite_true, ite_false] <;>
      split_ifs <;> first | rfl | omega

theorem last1_sortD : ∀ (t : List DeviceRec) (d : DeviceRec),
    last1 (sortD (d :: t)) = some (pickLatest d t) := by
  intro t
  induction t with
  | nil => intro d; rfl
  | cons e t2 ih =>
    intro d
    rw [sortD, last1_insertD (sortD (e :: t2)) (sortD_ascend _) d, ih e, pickLatest,
      ← pickLatest_swap t2 d e]

theorem pickLatest_mem_max (t : List DeviceRec) : ∀ acc : DeviceRec,
    pickLatest acc t ∈ acc :: t ∧ acc.date ≤ (pickLatest acc t).date ∧
    ∀ x ∈ t, x.date ≤ (pickLatest acc t).date := by
  induction t with
  | nil =>
    intro acc
    exact ⟨List.mem_cons_self _ _, le_refl _, by intro x hx; cases hx⟩
  | cons f t2 ih =>
    intro acc
    rw [pickLatest]
    rcases ih (if acc.date ≤ f.date then f else acc) with ⟨h1, h2, h3⟩
    have hacc : acc.date ≤ (if acc.date ≤ f.date then f else acc).date := by
      by_cases haf : acc.date ≤ f.date
      · simp [haf]
      · simp [haf]
    have hf : f.date ≤ (if acc.date ≤ f.date then f else acc).date := by
      by_cases haf : acc.date ≤ f.date
      · simp [haf]
      · simp [haf]; omega
    refine ⟨?_, le_trans hacc h2, ?_⟩
    · rcases List.mem_cons.mp h1 with h | h
      · rw [h]
        by_cases haf : acc.date ≤ f.date
        · simp [haf, List.mem_cons]
        · simp [haf, List.mem_cons]
      · exact List.mem_cons_of_mem _ (List.mem_cons_of_mem _ h)
    · intro x hx
      rcases List.mem_cons.mp hx with h | h
      · rw [h]
        exact le_trans hf h2
      · exact h3 x h

theorem getPopulated_map_some : ∀ ds : List DeviceRec, getPopulated (ds.map some) = .ok ds := by
  intro ds
  induction ds with
  | nil => rfl
  | cons d t ih => simp [getPopulated, ih]

theorem getPopulated_none : ∀ devices : List DeviceDict, none ∈ devices →
    getPopulated devices = .error .keyError := by
  intro devices
  induction devices with
  | nil => intro h; cases h
  | cons d rest ih =>
    intro h
    cases d with
    | none => rfl
    | some r =>
      rcases List.mem_cons.mp h with h | h
      · cases h
      · simp [getPopulated, ih h]

theorem get_device_list_eq (entries : List DirEntry) (readInfo : String → DeviceDict) :
    get_device_list entries readInfo
      = (entries.filter (fun e => e.isDir && (e.name.length == 25 || e.name.length == 40))).map
          (fun e => readInfo e.name) := by
  induction entries with
  | nil => rfl
  | cons e es ih =>
    rw [get_device_list]
    by_cases h : (e.isDir && (e.name.length == 25 || e.name.length == 40)) = true
    · simp [h, ih]
    · simp [List.filter_cons, h, ih]

theorem get_files_ok_mem {α : Type} (app dom rel : String) (flag : Nat)
    (rp fi : Bool) (table : List FRow) (bp : List String) (fs : List (List String))
    (dec : List Nat → Option α) (res : QueryResult α)
    (h : get_files app dom rel flag rp fi table bp fs dec = .ok res) :
    ∀ r2 ∈ res.files, ∃ row ∈ table, rowSelected app dom rel flag row = true ∧
      r2.fileID = row.fileID ∧ r2.domain = row.domain ∧
      r2.relativePath = row.relativePath ∧ r2.file = none ∧
      (fi = true → ∃ v, dec row.file = some v ∧ r2.info = some v) ∧
      (fi = false → r2.info = none) ∧
      (rp = true → flag = 1 →
        r2.path = some (realFilePath bp row.fileID) ∧ realFilePath bp row.fileID ∈ fs) ∧
      ((rp = false ∨ flag ≠ 1) → r2.path = none) := by
  rw [get_files] at h
  by_cases he : (table.filter (fun r => rowSelected app dom rel flag r)).isEmpty
  · simp only [he, if_true] at h
    cases h
    intro r2 hr2
    simp at hr2
  · simp only [he, Bool.false_eq_true, if_false] at h
    cases rp with
    | false =>
      cases fi with
      | false =>
        simp only [Bool.false_eq_true, if_false] at h
        cases h
        intro r2 hr2
        rw [List.map_map] at hr2
        rcases mem_filter_map_out _ _ _ _ hr2 with ⟨row, hmem, hp, hF⟩
        subst hF
        refine ⟨row, hmem, hp, ?_⟩
        simp [mkOut, delFileCol]
      | true =>
        simp only [Bool.false_eq_true, if_false, if_true] at h
        cases e : decodeInfos dec
            ((table.filter (fun r => rowSelected app dom rel flag r)).map mkOut) with
        | error err => rw [e] at h; cases h
        | ok files3 =>
          rw [e] at h
          cases h
          rcases decodeInfos_ok dec _ _ e with ⟨hall, hout⟩
          intro r2 hr2
          rw [hout, List.map_map, List.map_map] at hr2
          rcases mem_filter_map_out _ _ _ _ hr2 with ⟨row, hmem, hp, hF⟩
          subst hF
          rcases hall (mkOut row) (List.mem_map_of_mem mkOut (List.mem_filter.mpr
            ⟨hmem, hp⟩)) with ⟨b, v, hb, hv⟩
          refine ⟨row, hmem, hp, ?_⟩
          simp only [mkOut, Option.some.injEq] at hb
          subst hb
          simp [mkOut, delFileCol, hv]
    | true =>
      by_cases hflag : flag = 1
      · subst hflag
        simp only [if_true] at h
        cases er : resolvePaths bp fs
            ((table.filter (fun r => rowSelected app dom rel 1 r)).map mkOut) with
        | error err => rw [er] at h; cases h
        | ok files2 =>
          rw [er] at h
          rcases resolvePaths_ok bp fs _ _ er with ⟨hfs, hout2⟩
          cases fi with
          | false =>
            simp only [Bool.false_eq_true, if_false] at h
            cases h
            intro r2 hr2
            rw [hout2, List.map_map, List.map_map] at hr2
            rcases mem_filter_map_out _ _ _ _ hr2 with ⟨row, hmem, hp, hF⟩
            subst hF
            refine ⟨row, hmem, hp, ?_⟩
            refine ⟨rfl, rfl, rfl, rfl, by simp, by simp [mkOut, delFileCol], ?_, by simp⟩
            intro _ _
            refine ⟨by simp [mkOut, delFileCol], ?_⟩
            have := hfs (mkOut row)
              (List.mem_map_of_mem mkOut (List.mem_filter.mpr ⟨hmem, hp⟩))
            simpa [mkOut] using this
          | true =>
            simp only [if_true] at h
            cases e : decodeInfos dec files2 with
            | error err => rw [e] at h; cases h
            | ok files3 =>
              rw [e] at h
              cases h
              rcases decodeInfos_ok dec _ _ e with ⟨hall, hout3⟩
              intro r2 hr2
              rw [hout3, hout2, List.map_map, List.map_map, List.map_map] at hr2
              rcases mem_filter_map_out _ _ _ _ hr2 with ⟨row, hmem, hp, hF⟩
              subst hF
              have hmem2 : ({ mkOut row with
                  path := some (realFilePath bp (mkOut (α := α) row).fileID) }) ∈ files2 := by
                rw [hout2]
                exact List.mem_map_of_mem _ (List.mem_map_of_mem mkOut
                  (List.mem_filter.mpr ⟨hmem, hp⟩))
              rcases hall _ hmem2 with ⟨b, v, hb, hv⟩
              refine ⟨row, hmem, hp, ?_⟩
              simp only [mkOut, Option.some.injEq] at hb
              subst hb
              refine ⟨rfl, rfl, rfl, rfl, ?_, by simp, ?_, by simp⟩
              · intro _
                exact ⟨v, hv, by simp [mkOut, delFileCol, hv]⟩
              · intro _ _
                refine ⟨by simp [mkOut, delFileCol], ?_⟩
                have := hfs (mkOut row)
                  (List.mem_map_of_mem mkOut (List.mem_filter.mpr ⟨hmem, hp⟩))
                simpa [mkOut] using this
      · simp only [hflag, if_false] at h
        cases fi with
        | false =>
          simp only [Bool.false_eq_true, if_false] at h
          cases h
          intro r2 hr2
          rw [List.map_map] at hr2
          rcases mem_filter_map_out _ _ _ _ hr2 with ⟨row, hmem, hp, hF⟩
          subst hF
          refine ⟨row, hmem, hp, ?_⟩
          simp [mkOut, delFileCol, hflag]
        | true =>
          simp only [if_true] at h
          cases e : decodeInfos dec
              ((table.filter (fun r => rowSelected app dom rel flag r)).map mkOut) with
          | error err => rw [e] at h; cases h
          | ok files3 =>
            rw [e] at h
            cases h
            rcases decodeInfos_ok dec _ _ e with ⟨hall, hout⟩
            intro r2 hr2
            rw [hout, List.map_map, List.map_map] at hr2
            rcases mem_filter_map_out _ _ _ _ hr2 with ⟨row, hmem, hp, hF⟩
            subst hF
            rcases hall (mkOut row) (List.mem_map_of_mem mkOut (List.mem_filter.mpr
              ⟨hmem, hp⟩)) with ⟨b, v, hb, hv⟩
            refine ⟨row, hmem, hp, ?_⟩
            simp only [mkOut, Option.some.injEq] at hb
            subst hb
            simp [mkOut, delFileCol, hv, hflag]

/-- C1: for every catalog query with `file_flag = 1` and `real_path = true`,
every returned record's resolved path equals `backup_path / fileID[0:2] /
fileID` and that path exists on disk; and if the computed path of some
selected row does not exist, the query fails with the file-missing
assertion error instead of returning that record without signal. -/
theorem c1_realpath_resolution {α : Type} (app dom rel : String) (fi : Bool)
    (table : List FRow) (bp : List String) (fs : List (List String))
    (dec : List Nat → Option α) :
    (∀ res, get_files app dom rel 1 true fi table bp fs dec = .ok res →
      ∀ r2 ∈ res.files, r2.path = some (realFilePath bp r2.fileID) ∧
        realFilePath bp r2.fileID ∈ fs) ∧
    ((∃ row ∈ table, rowSelected app dom rel 1 row = true ∧
        realFilePath bp row.fileID ∉ fs) →
      get_files app dom rel 1 true fi table bp fs dec = .error .fileMissing) := by
  constructor
  · intro res h r2 hr2
    rcases get_files_ok_mem app dom rel 1 true fi table bp fs dec res h r2 hr2 with
      ⟨row, _, _, hfid, _, _, _, _, _, hpath, _⟩
    rcases hpath rfl rfl with ⟨hp1, hp2⟩
    rw [hfid]
    exact ⟨hp1, hp2⟩
  · exact get_files_missing app dom rel fi table bp fs dec

theorem c1_realpath_resolution_witness :
    ((⟨"ab12", "D", "p", some ["root", "ab", "ab12"], none, none⟩ : OutRec Nat).path
        = some (realFilePath ["root"] "ab12") ∧
      realFilePath ["root"] "ab12" ∈ [["root", "ab", "ab12"]]) ∧
    get_files "" "" "" 1 true false [⟨"cd34", "D", "p", 1, []⟩] ["root"] []
        (fun _ => (none : Option Nat)) = .error .fileMissing := by
  constructor
  · exact (c1_realpath_resolution "" "" "" false [⟨"ab12", "D", "p", 1, []⟩] ["root"]
      [["root", "ab", "ab12"]] (fun _ => none)).1
      ⟨[⟨"ab12", "D", "p", some ["root", "ab", "ab12"], none, none⟩], 0⟩ (by decide)
      _ (by decide)
  · exact (c1_realpath_resolution "" "" "" false [⟨"cd34", "D", "p", 1, []⟩] ["root"] []
      (fun _ => none)).2 ⟨⟨"cd34", "D", "p", 1, []⟩, by decide, by decide, by decide⟩

/-- On a quote-free app filter the string-level execution of the generated
clause agrees with the relational model `rowSelected` (exact-equality
clause, sample input). -/
theorem runQuery_agrees_app_sample :
    runQuery "com.x" "" "" 1
        [⟨"a", "AppDomain-com.x", "p", 1, []⟩, ⟨"b", "OtherDomain", "p", 1, []⟩]
      = some ([(⟨"a", "AppDomain-com.x", "p", 1, []⟩ : FRow),
          ⟨"b", "OtherDomain", "p", 1, []⟩].filter
          (fun r => rowSelected "com.x" "" "" 1 r)) := by decide

/-- On quote-free substring filters the string-level execution of the
generated clause agrees with the relational model `rowSelected` (`LIKE`
clauses, sample input). -/
theorem runQuery_agrees_like_sample :
    runQuery "" "ax" "q" 1
        [⟨"a", "xAXy", "q", 1, []⟩, ⟨"b", "zzz", "q", 1, []⟩, ⟨"c", "axb", "w", 1, []⟩]
      = some ([(⟨"a", "xAXy", "q", 1, []⟩ : FRow), ⟨"b", "zzz", "q", 1, []⟩,
          ⟨"c", "axb", "w", 1, []⟩].filter
          (fun r => rowSelected "" "ax" "q" 1 r)) := by decide

/-- C6: for every catalog query, under every combination of filters and
options, the raw metadata blob column `file` is absent from every returned
record. -/
theorem c6_no_raw_blob {α : Type} (app dom rel : String) (flag : Nat)
    (rp fi : Bool) (table : List FRow) (bp : List String) (fs : List (List String))
    (dec : List Nat → Option α) (res : QueryResult α)
    (h : get_files app dom rel flag rp fi table bp fs dec = .ok res) :
    ∀ r2 ∈ res.files, r2.file = none := by
  intro r2 hr2
  rcases get_files_ok_mem app dom rel flag rp fi table bp fs dec res h r2 hr2 with
    ⟨row, _, _, _, _, _, hfile, _⟩
  exact hfile

theorem c6_no_raw_blob_witness :
    (⟨"ab12", "D", "p", none, none, none⟩ : OutRec Nat).file = none :=
  c6_no_raw_blob "" "" "" 1 false false [⟨"ab12", "D", "p", 1, [9]⟩] [] []
    (fun _ => (none : Option Nat)) ⟨[⟨"ab12", "D", "p", none, none, none⟩], 0⟩
    (by decide) _ (by decide)

/-- C7: for every catalog query with `file_info = true`, each returned
record's `info` field holds the decoded blob of its catalog row, and a blob
the decoder rejects surfaces as the malformed-metadata error. -/
theorem c7_decode_info {α : Type} (app dom rel : String) (flag : Nat) (rp : Bool)
    (table : List FRow) (bp : List String) (fs : List (List String))
    (dec : List Nat → Option α) :
    (∀ res, get_files app dom rel flag rp true table bp fs dec = .ok res →
      ∀ r2 ∈ res.files, ∃ row ∈ table, rowSelected app dom rel flag row = true ∧
        r2.fileID = row.fileID ∧ ∃ v, dec row.file = some v ∧ r2.info = some v) ∧
    ((∃ row ∈ table, rowSelected app dom rel flag row = true ∧ dec row.file = none) →
      get_files app dom rel flag false true table bp fs dec = .error .malformedMetadata) := by
  constructor
  · intro res h r2 hr2
    rcases get_files_ok_mem app dom rel flag rp true table bp fs dec res h r2 hr2 with
      ⟨row, hmem, hsel, hfid, _, _, _, hinfo, _⟩
    exact ⟨row, hmem, hsel, hfid, hinfo rfl⟩
  · exact get_files_malformed app dom rel flag table bp fs dec

theorem c7_decode_info_witness :
    (∃ row ∈ [(⟨"ab12", "D", "p", 1, [7]⟩ : FRow)], rowSelected "" "" "" 1 row = true ∧
      (⟨"ab12", "D", "p", none, some 1, none⟩ : OutRec Nat).fileID = row.fileID ∧
      ∃ v, (fun b : List Nat => some b.length) row.file = some v ∧
        (⟨"ab12", "D", "p", none, some 1, none⟩ : OutRec Nat).info = some v) ∧
    get_files "" "" "" 1 false true [⟨"cd34", "D", "p", 1, [7]⟩] [] []
      (fun _ => (none : Option Nat)) = .error .malformedMetadata := by
  constructor
  · exact (c7_decode_info "" "" "" 1 false [⟨"ab12", "D", "p", 1, [7]⟩] [] []
      (fun b => some b.length)).1
      ⟨[⟨"ab12", "D", "p", none, some 1, none⟩], 0⟩ (by decide) _ (by decide)
  · exact (c7_decode_info "" "" "" 1 false [⟨"cd34", "D", "p", 1, [7]⟩] [] []
      (fun _ => (none : Option Nat))).2 ⟨⟨"cd34", "D", "p", 1, [7]⟩, by decide, by decide, rfl⟩

/-- C3 (amended): for non-empty domain and relativePath filters free of the
SQL `LIKE` metacharacters `%` and `_` and of single quotes, the query
returns exactly the rows of the requested flag whose `domain` contains the
domain filter and whose `relativePath` contains the relativePath filter as
substrings under ASCII-case-insensitive comparison; for strings containing
pattern metacharacters the match follows `LIKE` wildcard semantics, not
literal-substring semantics. -/
theorem c3_substring_filters {α : Type} (dom rel : String) (flag : Nat)
    (table : List FRow) (bp : List String) (fs : List (List String))
    (dec : List Nat → Option α)
    (hd : noLikeMeta dom = true) (hr : noLikeMeta rel = true)
    (hdne : dom ≠ "") (hrne : rel ≠ "") :
    get_files "" dom rel flag false false table bp fs dec
      = .ok ⟨(table.filter (fun r => (r.flags == flag) && containsCIs dom r.domain
          && containsCIs rel r.relativePath)).map
          (fun r => ⟨r.fileID, r.domain, r.relativePath, none, none, none⟩), 0⟩ := by
  have hpred : ∀ r ∈ table, rowSelected "" dom rel flag r
      = ((r.flags == flag) && containsCIs dom r.domain && containsCIs rel r.relativePath) := by
    intro r _
    rw [rowSelected]
    have h0 : _get_app_domain "" = "" := rfl
    rw [h0, if_pos rfl, if_neg hdne, if_neg hrne,
      likeMatch_wrapped dom hd r.domain, likeMatch_wrapped rel hr r.relativePath]
    simp [Bool.and_true]
  rw [get_files_plain, List.filter_congr hpred]

theorem c3_substring_filters_witness :
    get_files "" "ax" "q" 1 false false [⟨"f1", "xAXy", "q", 1, []⟩] [] []
        (fun _ => (none : Option Nat))
      = .ok ⟨([(⟨"f1", "xAXy", "q", 1, []⟩ : FRow)].filter
          (fun r => (r.flags == 1) && containsCIs "ax" r.domain
            && containsCIs "q" r.relativePath)).map
          (fun r => ⟨r.fileID, r.domain, r.relativePath, none, none, none⟩), 0⟩ :=
  c3_substring_filters "ax" "q" 1 [⟨"f1", "xAXy", "q", 1, []⟩] [] []
    (fun _ => (none : Option Nat)) (by decide) (by decide) (by decide) (by decide)

/-- C3 counterexample: with domain filter `a%b` (and relativePath filter
`q`), the query returns a record whose domain `axb` does not contain `a%b`
as a literal substring — the `%` acts as a wildcard, refuting
literal-substring-anywhere semantics for every possible filter string. -/
theorem c3_counterexample :
    get_files "" "a%b" "q" 1 false false [⟨"f1", "axb", "q", 1, []⟩] [] []
        (fun _ => (none : Option Nat))
      = .ok ⟨[⟨"f1", "axb", "q", none, none, none⟩], 0⟩
    ∧ containsLit "a%b".data "axb".data = false := ⟨by decide, by decide⟩

/-- C8 (amended): for every catalog query with `real_path = true` and
`file_flag ≠ 1`, the result equals the `real_path = false` result except
that exactly one warning is logged when at least one row matched (none when
the result is empty), and no returned record carries a resolved path. -/
theorem c8_skip_resolution {α : Type} (app dom rel : String) (flag : Nat) (fi : Bool)
    (table : List FRow) (bp : List String) (fs : List (List String))
    (dec : List Nat → Option α) (hflag : flag ≠ 1) :
    get_files app dom rel flag true fi table bp fs dec
      = Except.map (fun q => ⟨q.files, if q.files.isEmpty then 0 else 1⟩)
          (get_files app dom rel flag false fi table bp fs dec)
    ∧ (∀ res, get_files app dom rel flag true fi table bp fs dec = .ok res →
        ∀ r2 ∈ res.files, r2.path = none) := by
  constructor
  · rw [get_files, get_files]
    by_cases he : (table.filter (fun r => rowSelected app dom rel flag r)).isEmpty
    · simp [he, Except.map]
    · have hne : table.filter (fun r => rowSelected app dom rel flag r) ≠ [] := by
        intro hz
        rw [hz] at he
        exact he rfl
      simp only [he, Bool.false_eq_true, if_false, hflag]
      cases fi with
      | false =>
        simp only [Bool.false_eq_true, if_false, Except.map]
        have : (((table.filter (fun r => rowSelected app dom rel flag r)).map
            (mkOut (α := α))).map delFileCol).isEmpty = false := by
          rw [List.isEmpty_eq_false]
          simp [List.map_eq_nil_iff, hne]
        rw [this]
        rfl
      | true =>
        simp only [if_true]
        cases e : decodeInfos dec
            ((table.filter (fun r => rowSelected app dom rel flag r)).map mkOut) with
        | error err => simp [Except.map]
        | ok files3 =>
          rcases decodeInfos_ok dec _ _ e with ⟨_, hout⟩
          simp only [Except.map]
          have : (files3.map delFileCol).isEmpty = false := by
            rw [List.isEmpty_eq_false]
            simp [List.map_eq_nil_iff, hout, hne]
          rw [this]
          rfl
  · intro res h r2 hr2
    rcases get_files_ok_mem app dom rel flag true fi table bp fs dec res h r2 hr2 with
      ⟨row, _, _, _, _, _, _, _, _, _, hpath⟩
    exact hpath (Or.inr hflag)

theorem c8_skip_resolution_witness :
    (get_files "" "" "" 2 true false [⟨"d1", "D", "p", 2, []⟩] [] []
        (fun _ => (none : Option Nat))
      = Except.map (fun q => ⟨q.files, if q.files.isEmpty then 0 else 1⟩)
          (get_files "" "" "" 2 false false [⟨"d1", "D", "p", 2, []⟩] [] []
            (fun _ => (none : Option Nat))))
    ∧ (⟨"d1", "D", "p", none, none, none⟩ : OutRec Nat).path = none := by
  have h := c8_skip_resolution "" "" "" 2 false [⟨"d1", "D", "p", 2, []⟩] [] []
    (fun _ => (none : Option Nat)) (by decide)
  exact ⟨h.1, h.2 ⟨[⟨"d1", "D", "p", none, none, none⟩], 1⟩ (by decide) _ (by decide)⟩

/-- C8 counterexample: a directory query (`file_flag = 2`,
`real_path = true`) that matches no rows logs zero warnings, not exactly
one warning per query. -/
theorem c8_counterexample :
    get_files "" "" "" 2 true false ([] : List FRow) [] [] (fun _ => (none : Option Nat))
      = .ok ⟨[], 0⟩
    ∧ (⟨[], 0⟩ : QueryResult Nat).warnings ≠ 1 := ⟨by decide, by decide⟩

/-- C4: on a device list whose descriptors are all readable, `set_device`
selects the device with the requested udid when one matches; otherwise the
sole device when exactly one was discovered; otherwise the device with the
latest timestamp, ties resolved to the last such element of the input
order (the last element of the stable ascending sort). -/
theorem c4_set_device_selection (ds : List DeviceRec) (udid : String) :
    (udid ≠ "" → (∃ d ∈ ds, d.udid = udid) →
      set_device udid (ds.map some) = .ok (ds.find? (fun d => d.udid == udid)) ∧
      ∃ d, ds.find? (fun d => d.udid == udid) = some d ∧ d ∈ ds ∧ d.udid = udid) ∧
    ((udid = "" ∨ ∀ d ∈ ds, d.udid ≠ udid) →
      (∀ d, ds = [d] → set_device udid (ds.map some) = .ok (some d)) ∧
      (∀ d0 t, ds = d0 :: t → t ≠ [] →
        set_device udid (ds.map some) = .ok (some (pickLatest d0 t)) ∧
        pickLatest d0 t ∈ ds ∧ ∀ x ∈ ds, x.date ≤ (pickLatest d0 t).date)) := by
  have hsd : set_device udid (ds.map some)
      = .ok (if udid = "" ∨ udid ∉ ds.map (fun d => d.udid) then
               if ds.length < 1 then none
               else if ds.length = 1 then ds.head?
               else last1 (sortD ds)
             else ds.find? (fun d => d.udid == udid)) := by
    rw [set_device, getPopulated_map_some]
  constructor
  · intro hne hex
    have hmemmap : udid ∈ ds.map (fun d => d.udid) := by
      rcases hex with ⟨d, hd, hud⟩
      exact List.mem_map.mpr ⟨d, hd, hud⟩
    have hcond : ¬ (udid = "" ∨ udid ∉ ds.map (fun d => d.udid)) := by
      rintro (h | h)
      · exact hne h
      · exact h hmemmap
    rw [hsd, if_neg hcond]
    refine ⟨rfl, ?_⟩
    rcases hex with ⟨d, hd, hud⟩
    have hsome : (ds.find? (fun d => d.udid == udid)).isSome := by
      rw [List.find?_isSome]
      exact ⟨d, hd, by simp [hud]⟩
    rcases Option.isSome_iff_exists.mp hsome with ⟨d0, hd0⟩
    have hp := List.find?_some hd0
    have hpe : d0.udid = udid := by simpa using hp
    exact ⟨d0, hd0, List.mem_of_find?_eq_some hd0, hpe⟩
  · intro hcond2
    have hcond : udid = "" ∨ udid ∉ ds.map (fun d => d.udid) := by
      rcases hcond2 with h | h
      · exact Or.inl h
      · right
        intro hm
        rcases List.mem_map.mp hm with ⟨d, hd, hud⟩
        exact h d hd hud
    constructor
    · intro d hds
      subst hds
      rw [hsd, if_pos hcond]
      simp
    · intro d0 t hds ht
      subst hds
      rw [hsd, if_pos hcond]
      have h1 : ¬ ((d0 :: t).length < 1) := by simp
      have h2 : ¬ ((d0 :: t).length = 1) := by
        simp only [List.length_cons]
        cases t with
        | nil => exact absurd rfl ht
        | cons z zs => simp
      rw [if_neg h1, if_neg h2, last1_sortD t d0]
      rcases pickLatest_mem_max t d0 with ⟨hm, hacc, hall⟩
      refine ⟨rfl, hm, ?_⟩
      intro x hx
      rcases List.mem_cons.mp hx with h | h
      · rw [h]
        exact hacc
      · exact hall x h

theorem c4_set_device_selection_witness :
    (set_device "u1" [some devA, some devB]
        = .ok ([devA, devB].find? (fun d => d.udid == "u1")))
    ∧ set_device "" [some devA, some devB] = .ok (some (pickLatest devA [devB])) := by
  constructor
  · exact ((c4_set_device_selection [devA, devB] "u1").1 (by decide)
      ⟨devA, by simp, by decide⟩).1
  · exact (((c4_set_device_selection [devA, devB] "").2 (Or.inl rfl)).2 devA [devB]
      rfl (by simp)).1

/-- C5: evaluation at the failing input: `get_device_list` does include the
empty descriptor for an unreadable device directory, but `set_device` run
on a device list containing such an empty descriptor raises a key-lookup
error on `d["udid"]` instead of completing. -/
theorem c5_empty_descriptor_raises :
    get_device_list [⟨"ABCDEFGHIJKLMNOPQRSTUVWXY", true⟩] (fun _ => none) = [none]
    ∧ set_device "" [none] = .error .keyError
    ∧ set_device "" [] = .ok none := ⟨by decide, by decide, by decide⟩

/-- C9: evaluation at the failing input: with empty `info` descriptor data
and one catalog domain `AppDomain-com.example.App`, the fallback of
`get_app_list` returns the empty list because the source filters domains on
the misspelled literal `AppDoman-` instead of the `AppDomain-` naming
convention used everywhere else in the repository. -/
theorem c9_appdoman_typo :
    get_app_list [] ["AppDomain-com.example.App"] = .ok (.arr [])
    ∧ startsWithPy "AppDomain-" "AppDomain-com.example.App" = true
    ∧ startsWithPy "AppDoman-" "AppDomain-com.example.App" = false := by
  refine ⟨?_, by decide, by decide⟩
  simp [get_app_list, startsWithPy, uniqGo]

/-- C10: device enumeration ignores any backup-root entry that is not a
directory or whose name length differs from 25 and 40: deleting such an
entry from the listing leaves the device list unchanged. -/
theorem c10_name_length_filter (pre post : List DirEntry) (e : DirEntry)
    (readInfo : String → DeviceDict)
    (h : e.isDir = false ∨ (e.name.length ≠ 25 ∧ e.name.length ≠ 40)) :
    get_device_list (pre ++ e :: post) readInfo
      = get_device_list (pre ++ post) readInfo := by
  have hbad : (e.isDir && (e.name.length == 25 || e.name.length == 40)) = false := by
    rcases h with h | ⟨h1, h2⟩
    · simp [h]
    · simp [h1, h2]
  rw [get_device_list_eq, get_device_list_eq, List.filter_append, List.filter_append,
    List.filter_cons, hbad]
  simp

theorem c10_name_length_filter_witness :
    get_device_list [⟨"ABCDEFGHIJKLMNOPQRSTUVWXY", true⟩, ⟨"short", true⟩] (fun _ => none)
      = get_device_list [⟨"ABCDEFGHIJKLMNOPQRSTUVWXY", true⟩] (fun _ => none) :=
  c10_name_length_filter [⟨"ABCDEFGHIJKLMNOPQRSTUVWXY", true⟩] [] ⟨"short", true⟩
    (fun _ => none) (by decide)
